import Mathlib

/-!
Shallow embedding of the `kurobako` core (a benchmarking harness for
black-box optimization) and proofs about it.

The embedding follows `kurobako_core/src/domain.rs`,
`kurobako_core/src/problem.rs`, `kurobako_core/src/solver.rs`,
`kurobako_core/src/epi/channel.rs` and
`kurobako_core/src/epi/problem/message.rs`.

Rust `f64` values are modelled by the inductive `F64` below: an IEEE-754
double is either NaN, one of the two infinities, or a finite value
(modelled as a rational; IEEE comparisons on finite doubles agree with the
rational order, `-0.0` and `0.0` compare equal so they share one model
point).  Fallible Rust functions returning `Result<T>` are modelled as
`Except ErrorKind T`.
-/

namespace Kurobako

/-- Error kinds of `kurobako_core` (`error.rs`); only the kinds exercised by
the functions embedded here are listed. -/
inductive ErrorKind where
  | invalidInput
  | ioError
  | other
deriving DecidableEq, Repr

/-- Model of an IEEE-754 `f64`: NaN, the infinities, or a finite value. -/
inductive F64 where
  | nan
  | negInf
  | posInf
  | finite (q : ℚ)
deriving DecidableEq, Repr

namespace F64

/-- IEEE `<` on doubles: any comparison involving NaN is false; otherwise
the extended-real order. -/
def flt : F64 → F64 → Bool
  | nan, _ => false
  | _, nan => false
  | negInf, negInf => false
  | negInf, _ => true
  | _, negInf => false
  | posInf, _ => false
  | finite _, posInf => true
  | finite a, finite b => decide (a < b)

/-- IEEE `<=` on doubles: any comparison involving NaN is false; otherwise
the extended-real order. -/
def fle : F64 → F64 → Bool
  | nan, _ => false
  | _, nan => false
  | negInf, _ => true
  | _, negInf => false
  | _, posInf => true
  | posInf, _ => false
  | finite a, finite b => decide (a ≤ b)

/-- The double `0.0`. -/
def zero : F64 := finite 0

/-- Rust's `i64 as f64` cast.  It is exact for `|i| ≤ 2^53`, which covers
every discrete bound appearing in this development; the rounding performed
outside that window is not modelled. -/
def ofInt (i : Int) : F64 := finite i

end F64

/-- Model of `Distribution` (`domain.rs`). -/
inductive Distribution where
  | uniform
  | logUniform
deriving DecidableEq, Repr

/-- Model of `Range` (`domain.rs`): continuous `[low, high)`, discrete `[low, high)`
or categorical. -/
inductive Range where
  | continuous (low high : F64)
  | discrete (low high : Int)
  | categorical (choices : List String)
deriving DecidableEq, Repr

/-- Model of `Range::contains` (`domain.rs`). -/
def Range.containsVal : Range → F64 → Bool
  | .continuous low high, v => low.fle v && v.flt high
  | .discrete low high, v => (F64.ofInt low).fle v && v.flt (F64.ofInt high)
  | .categorical choices, v => F64.zero.fle v && v.flt (F64.ofInt choices.length)

/-- Model of `Condition` (`domain.rs`): the variable named `target` equals `value`. -/
inductive Condition where
  | eq (target : String) (value : F64)
deriving DecidableEq, Repr

/-- Model of `Variable` (`domain.rs`). -/
structure Variable where
  name : String
  range : Range
  distribution : Distribution
  conditions : List Condition
deriving DecidableEq, Repr

/-- Model of `VariableBuilder` (`domain.rs`). -/
structure VariableBuilder where
  name : String
  range : Range
  distribution : Distribution
  conditions : List Condition
deriving DecidableEq, Repr

namespace VariableBuilder

/-- Model of `VariableBuilder::new`: defaults to the unbounded continuous range with
the uniform distribution and no conditions. -/
def new (name : String) : VariableBuilder :=
  { name := name
    range := .continuous .negInf .posInf
    distribution := .uniform
    conditions := [] }

/-- Model of `VariableBuilder::uniform`. -/
def uniform (b : VariableBuilder) : VariableBuilder :=
  { b with distribution := .uniform }

/-- Model of `VariableBuilder::log_uniform`. -/
def logUniform (b : VariableBuilder) : VariableBuilder :=
  { b with distribution := .logUniform }

/-- Model of `VariableBuilder::continuous`. -/
def continuous (b : VariableBuilder) (low high : F64) : VariableBuilder :=
  { b with range := .continuous low high }

/-- Model of `VariableBuilder::discrete`. -/
def discrete (b : VariableBuilder) (low high : Int) : VariableBuilder :=
  { b with range := .discrete low high }

/-- Model of `VariableBuilder::categorical`. -/
def categorical (b : VariableBuilder) (choices : List String) : VariableBuilder :=
  { b with range := .categorical choices }

/-- Model of `VariableBuilder::boolean` = `categorical(["false", "true"])`. -/
def boolean (b : VariableBuilder) : VariableBuilder :=
  b.categorical ["false", "true"]

/-- Model of `VariableBuilder::condition`: appends one evaluation condition. -/
def condition (b : VariableBuilder) (c : Condition) : VariableBuilder :=
  { b with conditions := b.conditions ++ [c] }

/-- Model of `VariableBuilder::finish` (`domain.rs` lines 121–148): asserts
`low < high` for numeric ranges and nonemptiness for categorical ranges,
then, for the log-uniform distribution, additionally requires a numeric
range with strictly positive `low`. -/
def finish (b : VariableBuilder) : Except ErrorKind Variable :=
  let rangeOk : Bool :=
    match b.range with
    | .continuous low high => low.flt high
    | .discrete low high => decide (low < high)
    | .categorical choices => decide (choices.length > 0)
  if !rangeOk then .error .invalidInput
  else
    if b.distribution = .logUniform then
      match b.range with
      | .continuous low _ => if F64.zero.flt low then
          .ok ⟨b.name, b.range, b.distribution, b.conditions⟩
        else .error .invalidInput
      | .discrete low _ => if 0 < low then
          .ok ⟨b.name, b.range, b.distribution, b.conditions⟩
        else .error .invalidInput
      | .categorical _ => .error .invalidInput
    else
      .ok ⟨b.name, b.range, b.distribution, b.conditions⟩

end VariableBuilder

/-- The loop of `Condition::validate` (`domain.rs` lines 224–237)
together with the `track_panic!` that follows it: for each preceding
variable whose name matches `target` it asserts that the variable's range
contains `value`; once the scan is over it reaches the final
`track_panic!` and returns `InvalidInput` unconditionally. -/
def Condition.validateScan (target : String) (value : F64) :
    List Variable → Except ErrorKind Unit
  | [] => .error .invalidInput
  | v :: rest =>
    if target ≠ v.name then Condition.validateScan target value rest
    else if !v.range.containsVal value then .error .invalidInput
    else Condition.validateScan target value rest

/-- Model of `Condition::validate` (`domain.rs` lines 224–237). -/
def Condition.validate : Condition → List Variable → Except ErrorKind Unit
  | .eq target value, vs => Condition.validateScan target value vs

/-- Model of `Domain` (`domain.rs`): a vector of variables. -/
structure Domain where
  vars : List Variable
deriving DecidableEq, Repr

/-- The loop body of `Domain::new`: finishes each builder in order,
rejects duplicate names against the variables built so far, validates each
condition against them, and appends. -/
def Domain.build : List VariableBuilder → List Variable → Except ErrorKind (List Variable)
  | [], vars => .ok vars
  | b :: rest, vars => do
    let v ← b.finish
    if !(vars.all fun var => decide (v.name ≠ var.name)) then
      throw .invalidInput
    else do
      let _ ← v.conditions.foldlM (fun _ c => c.validate vars) ()
      Domain.build rest (vars ++ [v])

/-- Model of `Domain::new` (`domain.rs` lines 13–32). -/
def Domain.new (builders : List VariableBuilder) : Except ErrorKind Domain :=
  (Domain.build builders []).map Domain.mk

/-- Model of `Capability` (`solver.rs`). -/
inductive Capability where
  | uniformContinuous
  | uniformDiscrete
  | logUniformContinuous
  | logUniformDiscrete
  | categorical
  | conditional
  | multiObjective
deriving DecidableEq, Repr, Fintype

/-- Model of `Capabilities` (`solver.rs`): a set of capabilities (`BTreeSet`). -/
abbrev Capabilities : Type := Finset Capability

namespace Capabilities

/-- Model of `Capabilities::all` (`solver.rs` lines 60–74): the seven capabilities. -/
def all : Capabilities :=
  ({Capability.uniformContinuous, Capability.uniformDiscrete,
    Capability.logUniformContinuous, Capability.logUniformDiscrete,
    Capability.categorical, Capability.conditional,
    Capability.multiObjective} : Finset Capability)

/-- Model of `Capabilities::empty`. -/
def empty : Capabilities := (∅ : Finset Capability)

/-- Model of `Capabilities::is_superset`: `self ⊇ other`. -/
def isSuperset (self other : Capabilities) : Bool :=
  decide ((other : Finset Capability) ⊆ self)

/-- Model of `Capabilities::contains`. -/
def containsCap (self : Capabilities) (c : Capability) : Bool :=
  decide (c ∈ (self : Finset Capability))

/-- The `self.0.insert(c)` pattern used by the builder-style methods
`uniform_continuous`, …, `multi_objective` (`solver.rs`). -/
def insertCap (self : Capabilities) (c : Capability) : Capabilities :=
  insert c (self : Finset Capability)

end Capabilities

/-- Model of `ProblemSpec` (`problem.rs`).  `attrs` (a `BTreeMap<String, String>`) is
modelled as an association list; `evaluation_steps` (a `NonZeroU64`) is
modelled as a `Nat` together with the constructor-side guarantee that it is
nonzero. -/
structure ProblemSpec where
  name : String
  attrs : List (String × String)
  paramsDomain : Domain
  valuesDomain : Domain
  evaluationSteps : Nat
deriving DecidableEq, Repr

/-- Model of `ProblemSpecBuilder` (`problem.rs`). -/
structure ProblemSpecBuilder where
  name : String
  attrs : List (String × String)
  params : List VariableBuilder
  values : List VariableBuilder
  evaluationSteps : Nat
deriving Repr

namespace ProblemSpecBuilder

/-- Model of `ProblemSpecBuilder::new`: `evaluation_steps` defaults to 1. -/
def new (problemName : String) : ProblemSpecBuilder :=
  { name := problemName
    attrs := []
    params := []
    values := []
    evaluationSteps := 1 }

/-- Model of `ProblemSpecBuilder::param`. -/
def param (b : ProblemSpecBuilder) (v : VariableBuilder) : ProblemSpecBuilder :=
  { b with params := b.params ++ [v] }

/-- Model of `ProblemSpecBuilder::value`. -/
def value (b : ProblemSpecBuilder) (v : VariableBuilder) : ProblemSpecBuilder :=
  { b with values := b.values ++ [v] }

/-- Model of `ProblemSpecBuilder::evaluation_steps`. -/
def evaluationStepsSet (b : ProblemSpecBuilder) (steps : Nat) : ProblemSpecBuilder :=
  { b with evaluationSteps := steps }

/-- Model of `ProblemSpecBuilder::finish` (`problem.rs` lines 60–75): builds both
domains, then requires `evaluation_steps ≠ 0` (`NonZeroU64::new` returns
`None` exactly on 0). -/
def finish (b : ProblemSpecBuilder) : Except ErrorKind ProblemSpec := do
  let paramsDomain ← Domain.new b.params
  let valuesDomain ← Domain.new b.values
  if b.evaluationSteps = 0 then
    throw .invalidInput
  else
    return { name := b.name
             attrs := b.attrs
             paramsDomain := paramsDomain
             valuesDomain := valuesDomain
             evaluationSteps := b.evaluationSteps }

end ProblemSpecBuilder

/-- The capability inserted for one parameter by the `match` in
`ProblemSpec::requirements` (`problem.rs` lines 111–127). -/
def Variable.capability (v : Variable) : Capability :=
  match v.range, v.distribution with
  | .continuous _ _, .uniform => .uniformContinuous
  | .continuous _ _, .logUniform => .logUniformContinuous
  | .discrete _ _, .uniform => .uniformDiscrete
  | .discrete _ _, .logUniform => .logUniformDiscrete
  | .categorical _, _ => .categorical

/-- The body of the `for v in self.params_domain.variables()` loop in
`ProblemSpec::requirements`: adds `CONDITIONAL` when the parameter has
conditions, then the one capability matching its range and
distribution. -/
def requirementsStep (c : Capabilities) (v : Variable) : Capabilities :=
  let c := if v.conditions ≠ [] then c.insertCap .conditional else c
  c.insertCap v.capability

/-- Model of `ProblemSpec::requirements` (`problem.rs` lines 97–131): starts from
the empty set, adds `MULTI_OBJECTIVE` when the values domain has more than
one variable, and folds `requirementsStep` over the parameters. -/
def ProblemSpec.requirements (s : ProblemSpec) : Capabilities :=
  let c : Capabilities :=
    if s.valuesDomain.vars.length > 1 then
      Capabilities.empty.insertCap .multiObjective
    else Capabilities.empty
  s.paramsDomain.vars.foldl requirementsStep c

/-- Modelled from the spec: `Params` (`kurobako_core/src/trial.rs`, not
present under `src/`) is an ordered vector of real numbers, one per
params-domain variable. -/
abbrev Params : Type := List F64

/-- Modelled from the spec: `Values` (`kurobako_core/src/trial.rs`, not
present under `src/`) is an ordered vector of real numbers, one per
values-domain variable. -/
abbrev Values : Type := List F64

/-- Model of `ProblemMessage` (`epi/problem/message.rs`): the problem-protocol
message type, a serde tagged union keyed by `"type"` with
`rename_all = "SCREAMING_SNAKE_CASE"`. -/
inductive ProblemMessage where
  | problemSpecCast (spec : ProblemSpec)
  | createProblemCast (problemId randomSeed : Nat)
  | dropProblemCast (problemId : Nat)
  | createEvaluatorCall (problemId evaluatorId : Nat) (params : Params)
  | createEvaluatorOkReply
  | dropEvaluatorCast (problemId evaluatorId : Nat)
  | evaluateCall (problemId evaluatorId nextStep : Nat)
  | evaluateOkReply (currentStep : Nat) (values : Values)
  | errorReply (kind : ErrorKind) (message : Option String)

/-- The Rust name of each `ProblemMessage` variant. -/
def ProblemMessage.variantName : ProblemMessage → String
  | .problemSpecCast _ => "ProblemSpecCast"
  | .createProblemCast _ _ => "CreateProblemCast"
  | .dropProblemCast _ => "DropProblemCast"
  | .createEvaluatorCall _ _ _ => "CreateEvaluatorCall"
  | .createEvaluatorOkReply => "CreateEvaluatorOkReply"
  | .dropEvaluatorCast _ _ => "DropEvaluatorCast"
  | .evaluateCall _ _ _ => "EvaluateCall"
  | .evaluateOkReply _ _ => "EvaluateOkReply"
  | .errorReply _ _ => "ErrorReply"

/-- serde's `snake_case` rename rule: an underscore is inserted before
every uppercase character except the first one, and everything is
lowercased. -/
def snakeAux : Bool → List Char → List Char
  | _, [] => []
  | first, c :: rest =>
    (if c.isUpper && !first then ['_', c.toLower] else [c.toLower])
      ++ snakeAux false rest

/-- serde's `SCREAMING_SNAKE_CASE` rename rule: `snake_case`, then
uppercased. -/
def screamingSnakeCase (s : String) : String :=
  String.mk ((snakeAux true s.data).map Char.toUpper)

/-- The value of the `"type"` field that serde writes when serializing a
`ProblemMessage` variant: the variant name renamed by
`SCREAMING_SNAKE_CASE` (from `#[serde(tag = "type",
rename_all = "SCREAMING_SNAKE_CASE")]` in `epi/problem/message.rs`). -/
def ProblemMessage.typeTag (m : ProblemMessage) : String :=
  screamingSnakeCase m.variantName

/-! ### The framed-JSON channel (`epi/channel.rs`)

The channel is generic in the message type `T` with a serde codec; it is
embedded here at `T = Json`, a model of the JSON documents `serde_json`
reads and writes (number literals are modelled as integers and string
escapes as the common subset, which covers every payload appearing in this
development).  Byte streams are modelled as `List Char`. -/

/-- A JSON document. -/
inductive Json where
  | null
  | bool (b : Bool)
  | num (n : Int)
  | str (s : String)
  | arr (elems : List Json)
  | obj (fields : List (String × Json))

instance {ε α : Type} [DecidableEq ε] [DecidableEq α] :
    DecidableEq (Except ε α) := fun a b =>
  match a, b with
  | .ok x, .ok y => if h : x = y then .isTrue (by rw [h]) else
      .isFalse (by intro hc; exact h (Except.ok.inj hc))
  | .error x, .error y => if h : x = y then .isTrue (by rw [h]) else
      .isFalse (by intro hc; exact h (Except.error.inj hc))
  | .ok _, .error _ => .isFalse (by intro hc; exact Except.noConfusion hc)
  | .error _, .ok _ => .isFalse (by intro hc; exact Except.noConfusion hc)

/-- JSON string-content escaping. -/
def escapeChars : List Char → List Char
  | [] => []
  | c :: rest =>
    (if c = '"' then ['\\', '"']
     else if c = '\\' then ['\\', '\\']
     else if c = '\n' then ['\\', 'n']
     else [c]) ++ escapeChars rest

/-- Rendering of a JSON string literal. -/
def renderString (s : String) : List Char :=
  '"' :: escapeChars s.data ++ ['"']

mutual

/-- Serialization of a JSON document, as `serde_json::to_writer` emits it
(compact form, no added whitespace). -/
def Json.render : Json → List Char
  | .null => "null".data
  | .bool b => if b then "true".data else "false".data
  | .num n => (toString n).data
  | .str s => renderString s
  | .arr es => '[' :: Json.renderElems es ++ [']']
  | .obj fs => '\x7b' :: Json.renderFields fs ++ ['\x7d']

/-- Comma-separated rendering of array elements. -/
def Json.renderElems : List Json → List Char
  | [] => []
  | [e] => e.render
  | e :: rest => e.render ++ ',' :: Json.renderElems rest

/-- Comma-separated rendering of object members. -/
def Json.renderFields : List (String × Json) → List Char
  | [] => []
  | [(k, v)] => renderString k ++ ':' :: v.render
  | (k, v) :: rest => renderString k ++ ':' :: v.render ++ ',' :: Json.renderFields rest

end

/-- JSON whitespace. -/
def isWs (c : Char) : Bool :=
  c = ' ' || c = '\t' || c = '\n' || c = '\r'

/-- Skips leading JSON whitespace. -/
def skipWs : List Char → List Char
  | [] => []
  | c :: rest => if isWs c then skipWs rest else c :: rest

/-- Lexes a run of decimal digits. -/
def lexDigits (acc : Nat) : List Char → Nat × List Char
  | [] => (acc, [])
  | c :: rest =>
    if c.isDigit then lexDigits (acc * 10 + (c.toNat - 48)) rest
    else (acc, c :: rest)

/-- Parses an (integral) JSON number literal. -/
def parseNum : List Char → Option (Json × List Char)
  | '-' :: c :: rest =>
    if c.isDigit then
      let (n, r) := lexDigits (c.toNat - 48) rest
      some (.num (-(n : Int)), r)
    else none
  | c :: rest =>
    if c.isDigit then
      let (n, r) := lexDigits (c.toNat - 48) rest
      some (.num (n : Int), r)
    else none
  | [] => none

/-- Lexes the body of a JSON string literal after the opening quote,
up to and including the closing quote. -/
def lexString : List Char → Option (List Char × List Char)
  | [] => none
  | '"' :: rest => some ([], rest)
  | '\\' :: e :: rest => do
    let c ← match e with
      | '"' => some '"'
      | '\\' => some '\\'
      | '/' => some '/'
      | 'n' => some '\n'
      | 't' => some '\t'
      | 'r' => some '\r'
      | _ => none
    let (cs, r) ← lexString rest
    some (c :: cs, r)
  | c :: rest => do
    let (cs, r) ← lexString rest
    some (c :: cs, r)

mutual

/-- Recursive-descent parse of one JSON value, fuel-bounded. -/
def parseValue : Nat → List Char → Option (Json × List Char)
  | 0, _ => none
  | fuel + 1, input =>
    match skipWs input with
    | [] => none
    | c :: rest =>
      if c = 'n' then
        match rest with
        | 'u' :: 'l' :: 'l' :: r => some (.null, r)
        | _ => none
      else if c = 't' then
        match rest with
        | 'r' :: 'u' :: 'e' :: r => some (.bool true, r)
        | _ => none
      else if c = 'f' then
        match rest with
        | 'a' :: 'l' :: 's' :: 'e' :: r => some (.bool false, r)
        | _ => none
      else if c = '"' then
        match lexString rest with
        | some (cs, r) => some (.str (String.mk cs), r)
        | none => none
      else if c = '[' then
        match skipWs rest with
        | ']' :: r => some (.arr [], r)
        | r => parseElems fuel r
      else if c = '\x7b' then
        match skipWs rest with
        | '\x7d' :: r => some (.obj [], r)
        | r => parseFields fuel r
      else if c = '-' || c.isDigit then parseNum (c :: rest)
      else none

/-- Parses the elements of a nonempty JSON array after `[`. -/
def parseElems : Nat → List Char → Option (Json × List Char)
  | 0, _ => none
  | fuel + 1, input => do
    let (v, r) ← parseValue fuel input
    match skipWs r with
    | ',' :: r2 =>
      match parseElems fuel r2 with
      | some (.arr vs, r3) => some (.arr (v :: vs), r3)
      | _ => none
    | ']' :: r2 => some (.arr [v], r2)
    | _ => none

/-- Parses the members of a nonempty JSON object after the brace. -/
def parseFields : Nat → List Char → Option (Json × List Char)
  | 0, _ => none
  | fuel + 1, input =>
    match skipWs input with
    | '"' :: r =>
      match lexString r with
      | some (k, r2) =>
        match skipWs r2 with
        | ':' :: r3 => do
          let (v, r4) ← parseValue fuel r3
          match skipWs r4 with
          | ',' :: r5 =>
            match parseFields fuel r5 with
            | some (.obj fs, r6) => some (.obj ((String.mk k, v) :: fs), r6)
            | _ => none
          | '\x7d' :: r5 => some (.obj [(String.mk k, v)], r5)
          | _ => none
        | _ => none
      | none => none
    | _ => none

end

/-- Model of `serde_json::from_str::<Json>`: parses one document and
requires only whitespace to remain. -/
def jsonFromStr (s : List Char) : Option Json :=
  match parseValue (s.length + 1) s with
  | some (v, rest) => if skipWs rest = [] then some v else none
  | none => none

/-- The framing tag written and recognised by the channel. -/
def msgTag : List Char := "kurobako:".data

/-- Model of `MessageSender::send` (`epi/channel.rs` lines 28–34): writes the
literal tag `kurobako:`, then the JSON encoding of the message, then a
newline, and flushes.  Modelled as the byte sequence appended to the
output stream. -/
def MessageSender.send (m : Json) : List Char :=
  msgTag ++ m.render ++ ['\n']

/-- Outcome of `MessageReceiver::recv` in the fuel-bounded model: a
message, a decode error (`serde_json` failure propagated through
`track!(..)?`), or loop-iteration fuel exhausted (the concrete receiver
would still be looping).  Each outcome carries the lines written to the
host's stderr by `eprintln!`. -/
inductive RecvOutcome where
  | msg (m : Json) (stderrLines : List (List Char))
  | decodeError (stderrLines : List (List Char))
  | outOfFuel (stderrLines : List (List Char))

/-- Model of `BufRead::read_line`: appends the next input line (terminator
included) to the buffer; at end of file it appends nothing and leaves the
buffer unchanged.  The input stream is modelled as the list of lines
`read_line` would deliver. -/
def readLine : List Char → List (List Char) → List Char × List (List Char)
  | buf, [] => (buf, [])
  | buf, l :: rest => (buf ++ l, rest)

/-- The loop of `MessageReceiver::recv` (`epi/channel.rs` lines 61–73):
the buffer `line` is created once, before the loop, and never cleared;
each iteration appends one `read_line` result to it, forwards the buffer
to stderr (`eprintln!` appends a newline) when it does not start with
`kurobako:`, and otherwise feeds the whole buffer — tag included — to
`serde_json::from_str`. -/
def MessageReceiver.recvLoop :
    Nat → List Char → List (List Char) → List (List Char) → RecvOutcome
  | 0, _, _, logged => .outOfFuel logged
  | fuel + 1, buf, input, logged =>
    let (line, rest) := readLine buf input
    if msgTag.isPrefixOf line then
      match jsonFromStr line with
      | some m => .msg m logged
      | none => .decodeError logged
    else
      MessageReceiver.recvLoop fuel line rest (logged ++ [line ++ ['\n']])

/-- Model of `MessageReceiver::recv`, started with the empty buffer and no stderr
output. -/
def MessageReceiver.recv (fuel : Nat) (input : List (List Char)) : RecvOutcome :=
  MessageReceiver.recvLoop fuel [] input []

/-! ### Validity of a single variable -/

/-- Validity of a variable builder, in the claim's terms: numeric ranges
need `low < high`, categorical ranges need at least one choice, and the
log-uniform distribution is only valid with a strictly positive `low`
(hence only over a numeric range). -/
def specValidVariable (b : VariableBuilder) : Bool :=
  (match b.range with
   | .continuous low high => low.flt high
   | .discrete low high => decide (low < high)
   | .categorical choices => decide (choices.length > 0)) &&
  (match b.distribution, b.range with
   | .uniform, _ => true
   | .logUniform, .continuous low _ => F64.zero.flt low
   | .logUniform, .discrete low _ => decide (0 < low)
   | .logUniform, .categorical _ => false)

@[simp] lemma ok_bind {α β : Type} (a : α) (f : α → Except ErrorKind β) :
    (Except.ok a >>= f) = f a := rfl

@[simp] lemma error_bind {α β : Type} (e : ErrorKind) (f : α → Except ErrorKind β) :
    ((Except.error e : Except ErrorKind α) >>= f) = .error e := rfl

@[simp] lemma throw_eq {α : Type} (e : ErrorKind) :
    (throw e : Except ErrorKind α) = .error e := rfl

@[simp] lemma pure_eq {α : Type} (a : α) :
    (pure a : Except ErrorKind α) = .ok a := rfl

lemma finish_spec (b : VariableBuilder) :
    b.finish =
      if specValidVariable b
      then .ok ⟨b.name, b.range, b.distribution, b.conditions⟩
      else .error .invalidInput := by
  rcases b with ⟨name, range, dist, conds⟩
  cases range <;> cases dist <;>
    simp only [VariableBuilder.finish, specValidVariable] <;>
    (repeat' split) <;> simp_all <;> omega

lemma finish_ok_iff (b : VariableBuilder) (v : Variable) :
    b.finish = .ok v ↔
      specValidVariable b = true ∧
        v = ⟨b.name, b.range, b.distribution, b.conditions⟩ := by
  rw [finish_spec]
  constructor
  · intro h
    split at h
    next hvalid => exact ⟨hvalid, (Except.ok.inj h).symm⟩
    next => exact absurd h (by simp)
  · rintro ⟨h1, h2⟩
    rw [if_pos h1, h2]

lemma finish_error_iff (b : VariableBuilder) (e : ErrorKind) :
    b.finish = .error e ↔ specValidVariable b = false ∧ e = .invalidInput := by
  rw [finish_spec]
  constructor
  · intro h
    split at h
    next => exact absurd h (by simp)
    next hvalid =>
      exact ⟨by simpa using hvalid, (Except.error.inj h).symm⟩
  · rintro ⟨h1, h2⟩
    rw [if_neg (by simp [h1]), h2]

/-! ### `Condition::validate` never succeeds -/

lemma validateScan_errors (target : String) (value : F64) (vs : List Variable) :
    Condition.validateScan target value vs = .error .invalidInput := by
  induction vs with
  | nil => rfl
  | cons v rest ih =>
    simp only [Condition.validateScan]
    split
    · exact ih
    · split
      · rfl
      · exact ih

lemma validate_errors (c : Condition) (vs : List Variable) :
    c.validate vs = .error .invalidInput := by
  cases c with
  | eq target value => exact validateScan_errors target value vs

lemma foldlM_validate_ne_nil (cs : List Condition) (vs : List Variable)
    (h : cs ≠ []) :
    cs.foldlM (fun _ c => c.validate vs) () = .error .invalidInput := by
  cases cs with
  | nil => exact absurd rfl h
  | cons c rest =>
    simp only [List.foldlM]
    rw [validate_errors]
    rfl

lemma build_with_condition (b : VariableBuilder) (c : Condition)
    (bs₂ : List VariableBuilder) :
    ∀ (bs₁ : List VariableBuilder) (vars : List Variable),
      Domain.build (bs₁ ++ (b.condition c) :: bs₂) vars = .error .invalidInput := by
  intro bs₁
  induction bs₁ with
  | nil =>
    intro vars
    simp only [List.nil_append, Domain.build]
    cases hf : (b.condition c).finish with
    | error e =>
      have he := (finish_error_iff _ _).mp hf |>.2
      simp [hf, he]
    | ok v =>
      have hv := (finish_ok_iff _ _).mp hf |>.2
      have hconds : v.conditions ≠ [] := by
        rw [hv]; simp [VariableBuilder.condition]
      simp only [hf, ok_bind]
      split
      · simp
      · rw [foldlM_validate_ne_nil _ _ hconds]
        simp
  | cons hd tl ih =>
    intro vars
    simp only [List.cons_append, Domain.build]
    cases hf : hd.finish with
    | error e =>
      have he := (finish_error_iff _ _).mp hf |>.2
      simp [hf, he]
    | ok v =>
      simp only [hf, ok_bind]
      split
      · simp
      · cases hc : v.conditions with
        | nil => simpa [hc] using ih (vars ++ [v])
        | cons c0 cs =>
          rw [foldlM_validate_ne_nil _ _ (by simp)]
          simp

/-- C1: the spec says a condition `{target, value}` on variable `i` whose
`target` names a previously-declared variable whose range contains `value`
is accepted by `Domain::new`.  The code refutes this: `Condition::validate`
ends in an unconditional `track_panic!`, so every domain containing any
condition — however valid — is rejected with `InvalidInput`. -/
theorem C1_domain_with_condition_always_rejected
    (bs₁ bs₂ : List VariableBuilder) (b : VariableBuilder) (c : Condition) :
    Domain.new (bs₁ ++ (b.condition c) :: bs₂) = .error .invalidInput := by
  unfold Domain.new
  rw [build_with_condition b c bs₂ bs₁ []]
  rfl

/-- C10: a variable builder left with its defaults passes construction,
yielding a uniform continuous variable over `(-∞, +∞)` with no
conditions. -/
theorem C10_default_builder_succeeds (name : String) :
    (VariableBuilder.new name).finish =
      .ok ⟨name, .continuous .negInf .posInf, .uniform, []⟩ := rfl

/-- C6: `VariableBuilder::finish` fails with `InvalidInput` exactly when
the variable is invalid — a continuous or discrete range with
`low ≥ high` (more precisely, without `low < high`) fails, a log-uniform
distribution without a strictly positive numeric `low` fails, a
categorical range with zero choices fails — and any valid variable is
constructed successfully, carrying the builder's name, range,
distribution and conditions. -/
theorem C6_finish_exactly_on_valid (b : VariableBuilder) :
    b.finish =
      if specValidVariable b
      then .ok ⟨b.name, b.range, b.distribution, b.conditions⟩
      else .error .invalidInput :=
  finish_spec b

/-- C7: given valid params and values domains, `ProblemSpecBuilder::finish`
fails with `InvalidInput` when `evaluation_steps = 0` and otherwise
succeeds, the resulting `ProblemSpec` carrying the builder's positive
`evaluation_steps`. -/
theorem C7_finish_rejects_zero_steps (b : ProblemSpecBuilder) (pd vd : Domain)
    (hp : Domain.new b.params = .ok pd) (hv : Domain.new b.values = .ok vd) :
    b.finish =
      if b.evaluationSteps = 0 then .error .invalidInput
      else .ok ⟨b.name, b.attrs, pd, vd, b.evaluationSteps⟩ := by
  simp only [ProblemSpecBuilder.finish, hp, hv, ok_bind]
  split <;> simp

theorem C7_finish_rejects_zero_steps_witness :
    Domain.new ((ProblemSpecBuilder.new "p").evaluationStepsSet 3).params =
        .ok ⟨[]⟩ ∧
      ((ProblemSpecBuilder.new "p").evaluationStepsSet 3).finish =
        .ok ⟨"p", [], ⟨[]⟩, ⟨[]⟩, 3⟩ := by
  refine ⟨rfl, ?_⟩
  have h := C7_finish_rejects_zero_steps
    ((ProblemSpecBuilder.new "p").evaluationStepsSet 3) ⟨[]⟩ ⟨[]⟩ rfl rfl
  simpa using h

/-! ### Capability derivation -/

lemma mem_requirementsStep (c : Capabilities) (v : Variable) (x : Capability) :
    x ∈ requirementsStep c v ↔
      x = v.capability ∨ (x = .conditional ∧ v.conditions ≠ []) ∨ x ∈ c := by
  unfold requirementsStep Capabilities.insertCap
  split <;> simp_all [Finset.mem_insert]

lemma mem_foldl_requirements (vs : List Variable) (init : Capabilities)
    (x : Capability) :
    x ∈ vs.foldl requirementsStep init ↔
      x ∈ init ∨
        ∃ v ∈ vs, x = v.capability ∨ (x = .conditional ∧ v.conditions ≠ []) := by
  induction vs generalizing init with
  | nil => simp
  | cons v rest ih =>
    rw [List.foldl_cons, ih, mem_requirementsStep]
    constructor
    · rintro ((h | h | h) | ⟨w, hw, hp⟩)
      · exact Or.inr ⟨v, List.mem_cons_self v rest, Or.inl h⟩
      · exact Or.inr ⟨v, List.mem_cons_self v rest, Or.inr h⟩
      · exact Or.inl h
      · exact Or.inr ⟨w, List.mem_cons_of_mem v hw, hp⟩
    · rintro (h | ⟨w, hw, hp⟩)
      · exact Or.inl (Or.inr (Or.inr h))
      · rcases List.mem_cons.mp hw with rfl | hw'
        · rcases hp with h | h
          · exact Or.inl (Or.inl h)
          · exact Or.inl (Or.inr (Or.inl h))
        · exact Or.inr ⟨w, hw', hp⟩

lemma exists_param_or_distrib (vs : List Variable) (x : Capability) :
    (∃ v ∈ vs, x = v.capability ∨ (x = .conditional ∧ v.conditions ≠ [])) ↔
      ((∃ v ∈ vs, x = v.capability) ∨
        (x = .conditional ∧ ∃ v ∈ vs, v.conditions ≠ [])) := by
  constructor
  · rintro ⟨v, hv, h | ⟨hx, hc⟩⟩
    · exact Or.inl ⟨v, hv, h⟩
    · exact Or.inr ⟨hx, v, hv, hc⟩
  · rintro (⟨v, hv, h⟩ | ⟨hx, v, hv, hc⟩)
    · exact ⟨v, hv, Or.inl h⟩
    · exact ⟨v, hv, Or.inr ⟨hx, hc⟩⟩

/-- A problem with exactly one continuous log-uniform parameter (no
conditions) and two objective-value variables. -/
def logUniformExample : ProblemSpec :=
  { name := "example"
    attrs := []
    paramsDomain := ⟨[⟨"x", .continuous (.finite 1) (.finite 2), .logUniform, []⟩]⟩
    valuesDomain := ⟨[⟨"v1", .continuous .negInf .posInf, .uniform, []⟩,
                      ⟨"v2", .continuous .negInf .posInf, .uniform, []⟩]⟩
    evaluationSteps := 1 }

/-- C8: `ProblemSpec::requirements` derives exactly the described
capability set — `MULTI_OBJECTIVE` iff the values domain has more than one
variable, `CONDITIONAL` iff some parameter has conditions, plus for each
parameter the one capability matching its range and distribution — and in
particular one continuous log-uniform parameter with two value variables
yields `{LOG_UNIFORM_CONTINUOUS, MULTI_OBJECTIVE}` and nothing else. -/
theorem C8_requirements_exact :
    (∀ (s : ProblemSpec) (x : Capability),
        x ∈ s.requirements ↔
          (x = .multiObjective ∧ s.valuesDomain.vars.length > 1) ∨
          (x = .conditional ∧ ∃ v ∈ s.paramsDomain.vars, v.conditions ≠ []) ∨
          (∃ v ∈ s.paramsDomain.vars, x = v.capability)) ∧
      logUniformExample.requirements =
        ({Capability.logUniformContinuous, Capability.multiObjective} :
          Finset Capability) := by
  constructor
  · intro s x
    unfold ProblemSpec.requirements
    rw [mem_foldl_requirements, exists_param_or_distrib]
    split
    next h =>
      simp only [Capabilities.insertCap, Capabilities.empty,
        Finset.mem_insert, Finset.not_mem_empty, or_false, h, and_true]
      constructor
      · rintro (h1 | h1 | h1)
        exacts [Or.inl h1, Or.inr (Or.inr h1), Or.inr (Or.inl h1)]
      · rintro (h1 | h1 | h1)
        exacts [Or.inl h1, Or.inr (Or.inr h1), Or.inr (Or.inl h1)]
    next h =>
      simp only [Capabilities.empty, Finset.not_mem_empty, false_or, h,
        and_false, false_or]
      constructor
      · rintro (h1 | h1)
        exacts [Or.inr h1, Or.inl h1]
      · rintro (h1 | h1)
        exacts [Or.inr h1, Or.inl h1]
  · decide

/-- C9: for every `ProblemSpec`, the capability set `requirements()`
returns is a subset of `Capabilities::all()`, so
`Capabilities::all().is_superset(&spec.requirements())` always holds. -/
theorem C9_all_is_superset_of_requirements (s : ProblemSpec) :
    Capabilities.all.isSuperset s.requirements = true := by
  unfold Capabilities.isSuperset
  simp only [decide_eq_true_eq]
  intro x _
  cases x <;> simp [Capabilities.all, Finset.mem_insert]

/-! ### Channel theorems -/

lemma msgTag_eq : msgTag = ['k', 'u', 'r', 'o', 'b', 'a', 'k', 'o', ':'] := rfl

lemma isPrefixOf_append_self (l t : List Char) : l.isPrefixOf (l ++ t) = true := by
  induction l with
  | nil => simp [List.isPrefixOf]
  | cons c cs ih => simp [List.isPrefixOf, ih]

lemma isPrefixOf_cons_ne (a b : Char) (l₁ l₂ : List Char) (h : (a == b) = false) :
    (a :: l₁).isPrefixOf (b :: l₂) = false := by
  simp [List.isPrefixOf, h]

lemma parseValue_k_none (n : Nat) (rest : List Char) :
    parseValue (n + 1) ('k' :: rest) = none := by
  simp [parseValue, skipWs, isWs]

lemma jsonFromStr_tag_prefix_none (rest : List Char) :
    jsonFromStr (msgTag ++ rest) = none := by
  have e : msgTag ++ rest = 'k' :: ("urobako:".data ++ rest) := rfl
  rw [jsonFromStr, e]
  simp only [List.length_cons]
  rw [parseValue_k_none]

/-- C2: the spec's framing round-trip `parse(frame(M)) = M` fails for
every message: `recv` feeds the whole buffered line — the `kurobako:` tag
included — to `serde_json::from_str`, which rejects it, so receiving a
line framed by `MessageSender::send` always produces a decode error
instead of the message. -/
theorem C2_recv_of_framed_message_errors (m : Json) (fuel : Nat) :
    MessageReceiver.recv (fuel + 1) [MessageSender.send m] = .decodeError [] := by
  have e : MessageSender.send m = msgTag ++ (m.render ++ ['\n']) := by
    simp [MessageSender.send]
  unfold MessageReceiver.recv
  rw [e]
  simp only [MessageReceiver.recvLoop, readLine, List.nil_append,
    isPrefixOf_append_self, jsonFromStr_tag_prefix_none]
  simp

lemma recvLoop_eof (fuel : Nat) :
    ∀ (buf : List Char) (logged : List (List Char)),
      msgTag.isPrefixOf buf = false →
      MessageReceiver.recvLoop fuel buf [] logged =
        .outOfFuel (logged ++ List.replicate fuel (buf ++ ['\n'])) := by
  induction fuel with
  | zero =>
    intro buf logged h
    simp [MessageReceiver.recvLoop]
  | succ n ih =>
    intro buf logged h
    simp only [MessageReceiver.recvLoop, readLine, h]
    rw [ih buf (logged ++ [buf ++ ['\n']]) h]
    simp [List.replicate_succ]

/-- C3: when the input stream is at end of file before any tagged line,
`recv` never returns: `read_line`'s 0-byte EOF result is not checked, so
the loop re-logs the unchanged buffer forever instead of returning the
`TransportClosed` error the spec requires.  In the fuel-bounded model the
outcome is `outOfFuel` for every fuel. -/
theorem C3_recv_at_eof_never_returns (fuel : Nat) :
    MessageReceiver.recv fuel [] =
      .outOfFuel (List.replicate fuel ['\n']) := by
  unfold MessageReceiver.recv
  simpa using recvLoop_eof fuel [] [] rfl

/-- C4: an untagged line followed by a correctly framed message never
yields the message: because the line buffer is not cleared between
iterations, the framed line is appended after the untagged one, loses its
leading tag, is logged to stderr, and the receiver then spins at end of
file for any remaining fuel. -/
theorem C4_untagged_line_swallows_message (m : Json) (fuel : Nat) :
    MessageReceiver.recv (fuel + 2) ["log\n".data, MessageSender.send m] =
      .outOfFuel (("log\n".data ++ ['\n']) ::
        List.replicate (fuel + 1)
          (("log\n".data ++ MessageSender.send m) ++ ['\n'])) := by
  have h1 : msgTag.isPrefixOf ("log\n".data) = false := rfl
  have h2 : msgTag.isPrefixOf ("log\n".data ++ MessageSender.send m) = false := by
    have e : "log\n".data ++ MessageSender.send m =
        'l' :: ("og\n".data ++ MessageSender.send m) := rfl
    rw [e, msgTag_eq]
    exact isPrefixOf_cons_ne _ _ _ _ (by decide)
  unfold MessageReceiver.recv
  simp only [MessageReceiver.recvLoop, readLine, List.nil_append, h1, h2,
    Bool.false_eq_true, if_false]
  rw [recvLoop_eof fuel _ _ h2]
  simp [List.replicate_succ]

/-- C5 counterexample: the serialized `"type"` tag of the reply to
`CREATE_EVALUATOR_CALL` is `CREATE_EVALUATOR_OK_REPLY` (the variant is
named `CreateEvaluatorOkReply`), which is not among the nine tag names the
spec enumerates (the spec lists `CREATE_EVALUATOR_REPLY`). -/
theorem C5_counterexample_tag_not_in_spec_names :
    ProblemMessage.createEvaluatorOkReply.typeTag ∉
      (["PROBLEM_SPEC_CAST", "CREATE_PROBLEM_CAST", "DROP_PROBLEM_CAST",
        "CREATE_EVALUATOR_CALL", "CREATE_EVALUATOR_REPLY",
        "DROP_EVALUATOR_CAST", "EVALUATE_CALL", "EVALUATE_REPLY",
        "ERROR_REPLY"] : List String) := by decide

/-- C5 (amended): every `ProblemMessage` variant serializes with a
`"type"` tag among nine SCREAMING_SNAKE_CASE names, where the reply to
`CREATE_EVALUATOR_CALL` is tagged `CREATE_EVALUATOR_OK_REPLY` and the
reply to `EVALUATE_CALL` is tagged `EVALUATE_OK_REPLY` (not
`CREATE_EVALUATOR_REPLY` / `EVALUATE_REPLY` as the spec writes). -/
theorem C5_tags_amended :
    (∀ m : ProblemMessage, m.typeTag ∈
      (["PROBLEM_SPEC_CAST", "CREATE_PROBLEM_CAST", "DROP_PROBLEM_CAST",
        "CREATE_EVALUATOR_CALL", "CREATE_EVALUATOR_OK_REPLY",
        "DROP_EVALUATOR_CAST", "EVALUATE_CALL", "EVALUATE_OK_REPLY",
        "ERROR_REPLY"] : List String)) ∧
      ProblemMessage.createEvaluatorOkReply.typeTag =
        "CREATE_EVALUATOR_OK_REPLY" ∧
      (ProblemMessage.evaluateOkReply 0 []).typeTag = "EVALUATE_OK_REPLY" := by
  refine ⟨fun m => ?_, by decide, by decide⟩
  cases m <;>
    simp only [ProblemMessage.typeTag, ProblemMessage.variantName] <;> decide

end Kurobako
